import Mathlib

/-!
Verification of the freebucket storage engine (src/storage.rs) against its
natural-language specification.  The engine state (in-memory bucket index plus
on-disk layout) is embedded shallowly: bytes are `List Nat` (each < 256),
the filesystem tree of a bucket is an association list from object key to
byte content plus an association list of metadata files, and every engine
operation is a pure Lean function returning a result together with the
post-state, mirroring the Rust control flow.
-/

namespace Freebucket

/-! ## SHA-256 (ETag hashing)

The engine computes ETags with the external sha2/hex crates
(`Sha256::new(); hasher.update(data); hex::encode(hasher.finalize())` in
`StorageEngine::put_object`).  Those crates are not part of this repository,
so the hash is modelled from the spec here: a faithful FIPS 180-4 SHA-256
over byte lists, with 32-bit words as `Nat` reduced mod 2^32. -/
def M32 : Nat := 4294967296

def add32 (a b : Nat) : Nat := (a + b) % M32

def rotr (n x : Nat) : Nat := ((x >>> n) ||| (x <<< (32 - n))) % M32

def shr (n x : Nat) : Nat := x >>> n

def bigSigma0 (x : Nat) : Nat := rotr 2 x ^^^ rotr 13 x ^^^ rotr 22 x

def bigSigma1 (x : Nat) : Nat := rotr 6 x ^^^ rotr 11 x ^^^ rotr 25 x

def smallSigma0 (x : Nat) : Nat := rotr 7 x ^^^ rotr 18 x ^^^ shr 3 x

def smallSigma1 (x : Nat) : Nat := rotr 17 x ^^^ rotr 19 x ^^^ shr 10 x

def chFn (x y z : Nat) : Nat := (x &&& y) ^^^ ((x ^^^ 4294967295) &&& z)

def majFn (x y z : Nat) : Nat := (x &&& y) ^^^ (x &&& z) ^^^ (y &&& z)

def roundK : List Nat :=
  [1116352408, 1899447441, 3049323471, 3921009573, 961987163,
   1508970993, 2453635748, 2870763221, 3624381080, 310598401,
   607225278, 1426881987, 1925078388, 2162078206, 2614888103,
   3248222580, 3835390401, 4022224774, 264347078, 604807628,
   770255983, 1249150122, 1555081692, 1996064986, 2554220882,
   2821834349, 2952996808, 3210313671, 3336571891, 3584528711,
   113926993, 338241895, 666307205, 773529912, 1294757372,
   1396182291, 1695183700, 1986661051, 2177026350, 2456956037,
   2730485921, 2820302411, 3259730800, 3345764771, 3516065817,
   3600352804, 4094571909, 275423344, 430227734, 506948616,
   659060556, 883997877, 958139571, 1322822218, 1537002063,
   1747873779, 1955562222, 2024104815, 2227730452, 2361852424,
   2428436474, 2756734187, 3204031479, 3329325298]

/-- Working registers of the SHA-256 compression function. -/
structure Regs where
  a : Nat
  b : Nat
  c : Nat
  d : Nat
  e : Nat
  f : Nat
  g : Nat
  h : Nat

def initH : Regs :=
  ⟨1779033703, 3144134277, 1013904242, 2773480762,
   1359893119, 2600822924, 528734635, 1541459225⟩

def shaStep (st : Regs) (kw : Nat × Nat) : Regs :=
  let t1 := add32 st.h (add32 (bigSigma1 st.e) (add32 (chFn st.e st.f st.g) (add32 kw.1 kw.2)))
  let t2 := add32 (bigSigma0 st.a) (majFn st.a st.b st.c)
  ⟨add32 t1 t2, st.a, st.b, st.c, add32 st.d t1, st.e, st.f, st.g⟩

def be64 (n : Nat) : List Nat :=
  [(n >>> 56) % 256, (n >>> 48) % 256, (n >>> 40) % 256, (n >>> 32) % 256,
   (n >>> 24) % 256, (n >>> 16) % 256, (n >>> 8) % 256, n % 256]

/-- Append the 0x80 marker, zero padding and the 64-bit big-endian bit length. -/
def shaPad (msg : List Nat) : List Nat :=
  msg ++ 0x80 :: (List.replicate ((119 - msg.length % 64) % 64) 0 ++ be64 (8 * msg.length))

def toBlocksF : Nat → List Nat → List (List Nat)
  | 0, _ => []
  | fuel + 1, l => if l = [] then [] else l.take 64 :: toBlocksF fuel (l.drop 64)

/-- Split the padded message into 64-byte blocks (fuel keeps the recursion
structural; `l.length` is always enough fuel since each step consumes 64 bytes). -/
def toBlocks (l : List Nat) : List (List Nat) := toBlocksF l.length l

def toWords : List Nat → List Nat
  | b0 :: b1 :: b2 :: b3 :: rest => (((b0 * 256 + b1) * 256 + b2) * 256 + b3) :: toWords rest
  | _ => []

/-- Message-schedule extension, accumulating words most-recent-first, so that
W[n-2], W[n-7], W[n-15], W[n-16] sit at positions 1, 6, 14, 15. -/
def extendWRev : Nat → List Nat → List Nat
  | 0, acc => acc
  | fuel + 1, acc =>
      extendWRev fuel
        ((add32 (add32 (smallSigma1 (acc.getD 1 0)) (acc.getD 6 0))
          (add32 (smallSigma0 (acc.getD 14 0)) (acc.getD 15 0))) :: acc)

/-- Extend the 16 message words of a block to the 64-entry message schedule. -/
def schedule (w16 : List Nat) : List Nat := (extendWRev 48 w16.reverse).reverse

def compressBlock (hs : Regs) (block : List Nat) : Regs :=
  let w := schedule (toWords block)
  let st := (roundK.zip w).foldl shaStep hs
  ⟨add32 hs.a st.a, add32 hs.b st.b, add32 hs.c st.c, add32 hs.d st.d,
   add32 hs.e st.e, add32 hs.f st.f, add32 hs.g st.g, add32 hs.h st.h⟩

def word2bytes (x : Nat) : List Nat :=
  [(x >>> 24) % 256, (x >>> 16) % 256, (x >>> 8) % 256, x % 256]

/-- Modelled from the spec: the SHA-256 digest of the full byte payload; the
implementation lives in the external sha2 crate, not in this repository. -/
def sha256 (msg : List Nat) : List Nat :=
  let hs := (toBlocks (shaPad msg)).foldl compressBlock initH
  word2bytes hs.a ++ word2bytes hs.b ++ word2bytes hs.c ++ word2bytes hs.d ++
  word2bytes hs.e ++ word2bytes hs.f ++ word2bytes hs.g ++ word2bytes hs.h

def hexDigit (n : Nat) : Char := if n < 10 then Char.ofNat (48 + n) else Char.ofNat (87 + n)

/-- Modelled from the spec: lowercase hex rendering of a byte list (the
external hex crate's encode, not in this repository). -/
def hexEncode (bytes : List Nat) : String :=
  ((bytes.map (fun b => [hexDigit (b / 16), hexDigit (b % 16)])).flatten).asString

/-- The ETag computed by `put_object`: double-quoted lowercase hex SHA-256. -/
def etagOf (data : List Nat) : String := "\"" ++ hexEncode (sha256 data) ++ "\""

/-! ## UTF-8 byte model

Rust strings are UTF-8 byte sequences: `str::len` is the byte length and byte
slicing must land on character boundaries.  The byte view of a Lean `String`
is modelled by encoding each character with the standard UTF-8 scheme. -/
/-- Standard UTF-8 encoding of one character. -/
def encodeChar (c : Char) : List Nat :=
  let n := c.toNat
  if n < 0x80 then [n]
  else if n < 0x800 then [0xC0 + n / 64, 0x80 + n % 64]
  else if n < 0x10000 then [0xE0 + n / 4096, 0x80 + n / 64 % 64, 0x80 + n % 64]
  else [0xF0 + n / 262144, 0x80 + n / 4096 % 64, 0x80 + n / 64 % 64, 0x80 + n % 64]

/-- UTF-8 bytes of a character list. -/
def utf8L (l : List Char) : List Nat := (l.map encodeChar).flatten

/-- UTF-8 bytes of a string, i.e. the Rust `str` representation. -/
def utf8Bytes (s : String) : List Nat := utf8L s.toList

/-- Rust `str::len`: UTF-8 byte length. -/
def utf8Len (s : String) : Nat := (utf8Bytes s).length

/-- Modelled from the spec: content type guessed from the key's file extension,
defaulting to application/octet-stream (the external mime_guess crate, not in
this repository).  A small fixed extension table is enough for the model. -/
def mimeGuess (key : String) : String :=
  let fileName := (key.toList.reverse.takeWhile (· ≠ '/')).reverse
  let ext := (fileName.reverse.takeWhile (· ≠ '.')).reverse
  if fileName.contains '.' then
    match ext.asString with
    | "jpg" => "image/jpeg"
    | "txt" => "text/plain"
    | "json" => "application/json"
    | "html" => "text/html"
    | _ => "application/octet-stream"
  else "application/octet-stream"

/-! ## Data model (src/models.rs, src/error.rs)

Timestamps (`DateTime<Utc>`, produced by `Utc::now()`) are modelled as an
abstract `Nat` clock value passed into each operation. -/
/-- A storage bucket descriptor (struct `Bucket` in src/models.rs). -/
structure Bucket where
  name : String
  created_at : Nat
  region : String
  object_count : Nat
  total_size : Nat
deriving DecidableEq, Repr

/-- Per-object metadata (struct `ObjectMeta` in src/models.rs).  The
`metadata` HashMap is modelled as an association list. -/
structure ObjectMeta where
  key : String
  bucket : String
  size : Nat
  content_type : String
  etag : String
  last_modified : Nat
  metadata : List (String × String)
deriving DecidableEq, Repr

/-- Error type (enum `AppError` in src/error.rs); the payload of `IoError` is
irrelevant to the claims. -/
inductive AppError where
  | BucketNotFound (name : String)
  | BucketAlreadyExists (name : String)
  | ObjectNotFound (bucket : String) (key : String)
  | InvalidBucketName (reason : String)
  | InvalidObjectKey (reason : String)
  | StorageError (msg : String)
  | IoError
deriving DecidableEq, Repr

/-- Content of a persisted `.bucket_meta.json` file: either JSON that parses
as a `Bucket`, or malformed text. -/
inductive BucketMetaFile where
  | wellFormed (b : Bucket)
  | malformed
deriving DecidableEq, Repr

/-- Content of a persisted `.meta/<flattened-key>.json` file. -/
inductive MetaFile where
  | wellFormed (m : ObjectMeta)
  | malformed
deriving DecidableEq, Repr

/-- On-disk content of one bucket directory `<root>/<bucket>/`:
`objects` maps each object key (the file's path relative to `objects/`, with
separators normalized to `/`) to its byte content; `metaFiles` maps each
flattened key to the content of `.meta/<flattened-key>.json`; `bucketMetaFile`
is the content of `.bucket_meta.json` when that file exists.  The entry count
of the `objects/` directory is zero exactly when `objects` is empty: `put_object`
creates parent directories only on writes and `delete_object` removes emptied
parent directories, so the tree holds no stale empty directories. -/
structure BucketDir where
  objects : List (String × List Nat)
  metaFiles : List (String × MetaFile)
  bucketMetaFile : Option BucketMetaFile
deriving DecidableEq, Repr

def emptyDir : BucketDir := ⟨[], [], none⟩

/-- Whole engine state: the in-memory bucket index (the `RwLock<HashMap>` of
`StorageEngine`) and the on-disk root directory, both as association lists
keyed by bucket name. -/
structure EngineState where
  buckets : List (String × Bucket)
  disk : List (String × BucketDir)
deriving DecidableEq, Repr

/-! ## Association-list primitives (HashMap / directory-listing model) -/
def lookupEntry {α : Type} : List (String × α) → String → Option α
  | [], _ => none
  | (k, v) :: rest, key => if k = key then some v else lookupEntry rest key

def setEntry {α : Type} : List (String × α) → String → α → List (String × α)
  | [], key, v => [(key, v)]
  | (k, v') :: rest, key, v =>
      if k = key then (key, v) :: rest else (k, v') :: setEntry rest key v

def removeEntry {α : Type} (l : List (String × α)) (key : String) : List (String × α) :=
  l.filter (fun p => p.1 ≠ key)

/-! ## Engine operations (src/storage.rs)

Each mutating operation returns its result together with the post-state; an
early `return Err(..)` in the Rust code corresponds to returning the state
reached at that point (no filesystem mutation precedes any of the modelled
error returns). -/
/-- `StorageEngine::validate_bucket_name` (storage.rs:93).  `name.len()` is
the UTF-8 byte length. -/
def validate_bucket_name (name : String) : Except AppError Unit :=
  if utf8Len name < 3 ∨ utf8Len name > 63 then
    .error (.InvalidBucketName "Bucket name must be between 3 and 63 characters")
  else if ¬ (name.toList.all fun c =>
      (97 ≤ c.toNat && c.toNat ≤ 122) || (48 ≤ c.toNat && c.toNat ≤ 57) || c == '-' || c == '.') then
    .error (.InvalidBucketName "Bucket name can only contain lowercase letters, numbers, hyphens, and periods")
  else if name.toList.head? = some '-' ∨ name.toList.getLast? = some '-' then
    .error (.InvalidBucketName "Bucket name cannot start or end with a hyphen")
  else .ok ()

/-- `StorageEngine::create_bucket_meta` (storage.rs:68). -/
def create_bucket_meta (now : Nat) (name : String) : Bucket :=
  { name := name, created_at := now, region := "local", object_count := 0, total_size := 0 }

/-- `StorageEngine::scan_buckets` (storage.rs:37): builds the index from the
subdirectories of the root (files in the root are not modelled: the code skips
anything that is not a directory).  Dot-prefixed names are skipped.  A
malformed `.bucket_meta.json` is repaired in memory via `unwrap_or_else`; an
absent one is synthesized and persisted.  Returns the index and the
possibly-updated disk. -/
def scan_buckets (now : Nat) : List (String × BucketDir) → List (String × Bucket) × List (String × BucketDir)
  | [] => ([], [])
  | (name, dir) :: rest =>
      let r := scan_buckets now rest
      if name.toList.head? = some '.' then (r.1, (name, dir) :: r.2)
      else
        match dir.bucketMetaFile with
        | some (.wellFormed b) => ((name, b) :: r.1, (name, dir) :: r.2)
        | some .malformed => ((name, create_bucket_meta now name) :: r.1, (name, dir) :: r.2)
        | none =>
            let b := create_bucket_meta now name
            ((name, b) :: r.1, (name, { dir with bucketMetaFile := some (.wellFormed b) }) :: r.2)

/-- `StorageEngine::new` (storage.rs:22): the root directory is created if
absent and the index is built by `scan_buckets`. -/
def newEngine (now : Nat) (rootDirs : List (String × BucketDir)) : EngineState :=
  let r := scan_buckets now rootDirs
  { buckets := r.1, disk := r.2 }

/-- `StorageEngine::create_bucket` (storage.rs:112). -/
def create_bucket (s : EngineState) (now : Nat) (name region : String) :
    Except AppError Bucket × EngineState :=
  match validate_bucket_name name with
  | .error e => (.error e, s)
  | .ok () =>
    if (lookupEntry s.buckets name).isSome then (.error (.BucketAlreadyExists name), s)
    else
      let bucket : Bucket :=
        { name := name, created_at := now, region := region, object_count := 0, total_size := 0 }
      let dir0 := (lookupEntry s.disk name).getD emptyDir
      let dir := { dir0 with bucketMetaFile := some (.wellFormed bucket) }
      (.ok bucket,
       { buckets := setEntry s.buckets name bucket, disk := setEntry s.disk name dir })

/-- `StorageEngine::get_bucket` (storage.rs:149). -/
def get_bucket (s : EngineState) (name : String) : Except AppError Bucket :=
  match lookupEntry s.buckets name with
  | some b => .ok b
  | none => .error (.BucketNotFound name)

/-- `StorageEngine::delete_bucket` (storage.rs:157).  The `objects/` directory
entry count is positive exactly when the bucket holds at least one object (see
`BucketDir`). -/
def delete_bucket (s : EngineState) (name : String) : Except AppError Unit × EngineState :=
  if (lookupEntry s.buckets name).isNone then (.error (.BucketNotFound name), s)
  else
    let dir := (lookupEntry s.disk name).getD emptyDir
    if dir.objects.length > 0 then
      (.error (.StorageError "Bucket is not empty. Delete all objects first."), s)
    else
      (.ok (), { buckets := removeEntry s.buckets name, disk := removeEntry s.disk name })

/-- `StorageEngine::object_meta_path` flattening (storage.rs:87):
`key.replace('/', "__SLASH__")`. -/
def flattenKey (key : String) : String :=
  ((key.toList.map fun c => if c = '/' then "__SLASH__".toList else [c]).flatten).asString

/-- `StorageEngine::get_object_meta` (storage.rs:274): stored metadata wins;
a missing metadata file is reconstructed from the data file (size, guessed
content type, recomputed hash, fresh timestamp, empty user metadata); corrupt
stored JSON is a `StorageError`. -/
def get_object_meta (s : EngineState) (now : Nat) (bucket key : String) :
    Except AppError ObjectMeta :=
  let dir := (lookupEntry s.disk bucket).getD emptyDir
  match lookupEntry dir.metaFiles (flattenKey key) with
  | some (.wellFormed m) => .ok m
  | some .malformed => .error (.StorageError "Corrupt metadata")
  | none =>
      match lookupEntry dir.objects key with
      | none => .error (.ObjectNotFound bucket key)
      | some data =>
          .ok { key := key, bucket := bucket, size := data.length,
                content_type := mimeGuess key, etag := etagOf data,
                last_modified := now, metadata := [] }

/-- `StorageEngine::update_bucket_stats` (storage.rs:454) together with
`dir_stats` (storage.rs:472): the recursive walk counts every file under
`objects/` and sums their sizes. -/
def update_bucket_stats (s : EngineState) (bucket_name : String) : EngineState :=
  let dir := (lookupEntry s.disk bucket_name).getD emptyDir
  let count := dir.objects.length
  let size := (dir.objects.map fun p => p.2.length).sum
  match lookupEntry s.buckets bucket_name with
  | none => s
  | some b =>
      let b' := { b with object_count := count, total_size := size }
      { buckets := setEntry s.buckets bucket_name b',
        disk := setEntry s.disk bucket_name { dir with bucketMetaFile := some (.wellFormed b') } }

/-- `StorageEngine::put_object` (storage.rs:182). -/
def put_object (s : EngineState) (now : Nat) (bucket key : String) (data : List Nat)
    (content_type : Option String) (metadata : List (String × String)) :
    Except AppError ObjectMeta × EngineState :=
  if (lookupEntry s.buckets bucket).isNone then (.error (.BucketNotFound bucket), s)
  else if utf8Len key = 0 ∨ utf8Len key > 1024 then
    (.error (.InvalidObjectKey "Key must be between 1 and 1024 characters"), s)
  else
    let ct := content_type.getD (mimeGuess key)
    let etag := etagOf data
    let dir := (lookupEntry s.disk bucket).getD emptyDir
    let dir1 := { dir with objects := setEntry dir.objects key data }
    let meta : ObjectMeta :=
      { key := key, bucket := bucket, size := data.length, content_type := ct,
        etag := etag, last_modified := now, metadata := metadata }
    let dir2 := { dir1 with metaFiles := setEntry dir1.metaFiles (flattenKey key) (.wellFormed meta) }
    let s1 : EngineState := { s with disk := setEntry s.disk bucket dir2 }
    (.ok meta, update_bucket_stats s1 bucket)

/-- `StorageEngine::get_object` (storage.rs:251). -/
def get_object (s : EngineState) (now : Nat) (bucket key : String) :
    Except AppError (ObjectMeta × List Nat) :=
  if (lookupEntry s.buckets bucket).isNone then .error (.BucketNotFound bucket)
  else
    let dir := (lookupEntry s.disk bucket).getD emptyDir
    match lookupEntry dir.objects key with
    | none => .error (.ObjectNotFound bucket key)
    | some data =>
        match get_object_meta s now bucket key with
        | .error e => .error e
        | .ok meta => .ok (meta, data)

/-! ## Listing (walk_objects / list_objects) -/
/-- First index (in characters) at which `pat` occurs in `l`; models Rust
`str::find` with a string pattern (byte positions and character positions
agree on valid UTF-8, see the C10 theorem). -/
def findSub (pat : List Char) : List Char → Option Nat
  | [] => if pat.isPrefixOf [] then some 0 else none
  | c :: rest =>
      if pat.isPrefixOf (c :: rest) then some 0 else (findSub pat rest).map (· + 1)

/-- The per-key branch of `StorageEngine::walk_objects` (storage.rs:431-443):
`none` when the key fails the prefix test, `some (some cp)` when the delimiter
occurs after the prefix and the key folds into the common prefix `cp`,
`some none` when the key is listed as a leaf object. -/
def classifyKey (pre : String) (delim : Option String) (k : String) : Option (Option String) :=
  if pre.toList.isPrefixOf k.toList then
    match delim with
    | some d =>
        let after := k.toList.drop pre.toList.length
        match findSub d.toList after with
        | some i => some (some ((pre.toList ++ after.take i ++ d.toList).asString))
        | none => some none
    | none => some none
  else none

/-- `StorageEngine::walk_objects` (storage.rs:406), flattened over the list of
files of the `objects/` tree (the relative key of each file together with
its bytes).  Returns the collected leaf objects and common prefixes; the
traversal order does not survive into `list_objects`, which sorts both. -/
def walk_objects (s : EngineState) (now : Nat) (bucket pre : String)
    (delim : Option String) : List (String × List Nat) → List ObjectMeta × List String
  | [] => ([], [])
  | (k, _) :: rest =>
      let r := walk_objects s now bucket pre delim rest
      match classifyKey pre delim k with
      | none => r
      | some (some cp) => (r.1, cp :: r.2)
      | some none =>
          match get_object_meta s now bucket k with
          | .ok m => (m :: r.1, r.2)
          | .error _ => r

/-- Rust `Vec::dedup`: removes consecutive duplicates. -/
def dedupAdj {α : Type} [DecidableEq α] : List α → List α
  | [] => []
  | [a] => [a]
  | a :: b :: rest => if a = b then dedupAdj (b :: rest) else a :: dedupAdj (b :: rest)

/-- Listing response (struct `ListObjectsResponse` in src/models.rs); the
field `pre` models the source field named after the listing prefix. -/
structure ListObjectsResponse where
  bucket : String
  pre : String
  objects : List ObjectMeta
  common_prefixes : List String
  is_truncated : Bool
  max_keys : Nat
deriving DecidableEq, Repr

/-- Lexicographic comparison of character lists by code point; models Rust's
`str` ordering (byte order, which agrees with code-point order on UTF-8). -/
def lexLe : List Char → List Char → Bool
  | [], _ => true
  | _ :: _, [] => false
  | a :: as, b :: bs =>
      if a.toNat < b.toNat then true
      else if b.toNat < a.toNat then false
      else lexLe as bs

/-- Rust `String` ordering (`a.key.cmp(&b.key)` in `list_objects`). -/
def strLe (a b : String) : Bool := lexLe a.toList b.toList

instance : DecidableRel (fun (a b : ObjectMeta) => strLe a.key b.key = true) :=
  fun a b => inferInstanceAs (Decidable (strLe a.key b.key = true))

instance : DecidableRel (fun (a b : String) => strLe a b = true) :=
  fun a b => inferInstanceAs (Decidable (strLe a b = true))

/-- `StorageEngine::list_objects` (storage.rs:366).  `sort_by` on unique keys
and `sort` are modelled by insertion sort (both are stable sorts, and the
final lists are fully determined by the sort order). -/
def list_objects (s : EngineState) (now : Nat) (bucket pre : String)
    (delim : Option String) (max_keys : Nat) : Except AppError ListObjectsResponse :=
  if (lookupEntry s.buckets bucket).isNone then .error (.BucketNotFound bucket)
  else
    let dir := (lookupEntry s.disk bucket).getD emptyDir
    let r := walk_objects s now bucket pre delim dir.objects
    let objs := List.insertionSort (fun a b => strLe a.key b.key = true) r.1
    let cps := dedupAdj (List.insertionSort (fun a b : String => strLe a b = true) r.2)
    .ok { bucket := bucket, pre := pre, objects := objs.take max_keys,
          common_prefixes := cps,
          is_truncated := decide (max_keys < objs.length), max_keys := max_keys }

instance {ε α : Type} [DecidableEq ε] [DecidableEq α] : DecidableEq (Except ε α) := fun x y =>
  match x, y with
  | .ok a, .ok b =>
      if h : a = b then isTrue (by rw [h]) else isFalse (by intro hh; cases hh; exact h rfl)
  | .error a, .error b =>
      if h : a = b then isTrue (by rw [h]) else isFalse (by intro hh; cases hh; exact h rfl)
  | .ok _, .error _ => isFalse (by intro hh; cases hh)
  | .error _, .ok _ => isFalse (by intro hh; cases hh)

/-! ## Shared concrete states for witnesses and examples -/
def bEx : Bucket := create_bucket_meta 0 "bkt"

/-- A state holding one empty bucket named `bkt` (as produced by
`create_bucket` on a fresh engine). -/
def sEmptyBkt : EngineState := ⟨[("bkt", bEx)], [("bkt", ⟨[], [], some (.wellFormed bEx)⟩)]⟩

/-- `sEmptyBkt` after one `put_object` of the byte `7` at key `k.txt`. -/
def sOneObj : EngineState := (put_object sEmptyBkt 1 "bkt" "k.txt" [7] none []).2

/-- `sEmptyBkt` after putting `photos/a.jpg`, `photos/b/c.jpg` and
`docs/d.txt` (the listing example of the spec). -/
def sPhotos : EngineState :=
  (put_object (put_object (put_object sEmptyBkt 1 "bkt" "photos/a.jpg" [1, 2] none []).2
    2 "bkt" "photos/b/c.jpg" [3] none []).2 3 "bkt" "docs/d.txt" [4] none []).2

/-- An engine initialized over a root that already contains a directory named
`AB`: the scan indexes it even though the name fails validation. -/
def sBad : EngineState := newEngine 0 [("AB", emptyDir)]

/-! ## Bucket-name validation (C3) -/
/-- The claim's acceptance condition, stated over characters: length between
3 and 63, every character a lowercase ASCII letter, an ASCII digit, a hyphen
or a period, and no leading/trailing hyphen. -/
def bucketNameOk (name : String) : Prop :=
  3 ≤ name.toList.length ∧ name.toList.length ≤ 63 ∧
  (∀ c ∈ name.toList,
    (97 ≤ c.toNat ∧ c.toNat ≤ 122) ∨ (48 ≤ c.toNat ∧ c.toNat ≤ 57) ∨ c = '-' ∨ c = '.') ∧
  name.toList.head? ≠ some '-' ∧ name.toList.getLast? ≠ some '-'

instance (name : String) : Decidable (bucketNameOk name) := by
  unfold bucketNameOk
  infer_instance

/-! ## Object-key validation (C8) -/
/-- A key of 513 two-byte characters: 513 characters but 1026 UTF-8 bytes. -/
def key513 : String := (List.replicate 513 'é').asString

/-- Length class of a UTF-8 sequence, read off its first byte. -/
def encSizeOfHead (b : Nat) : Nat :=
  if b < 0x80 then 1 else if b < 0xE0 then 2 else if b < 0xF0 then 3 else 4

/-- Decoder inverting `encodeChar`, used only to prove injectivity. -/
def decodeEnc : List Nat → Nat
  | [b0] => b0
  | [b0, b1] => (b0 - 0xC0) * 64 + (b1 - 0x80)
  | [b0, b1, b2] => (b0 - 0xE0) * 4096 + (b1 - 0x80) * 64 + (b2 - 0x80)
  | [b0, b1, b2, b3] =>
      (b0 - 0xF0) * 262144 + (b1 - 0x80) * 4096 + (b2 - 0x80) * 64 + (b3 - 0x80)
  | _ => 0

/-! ## Theorems -/

/-- FIPS 180-4 test vector: the modelled hash agrees with the published
SHA-256 digest of the empty message. -/
theorem sha256_empty_vector : hexEncode (sha256 []) =
    "e3b0c44298fc1c149afbf4c8996fb92427ae41e4649b934ca495991b7852b855" := by decide

/-- FIPS 180-4 test vector: the modelled hash agrees with the published
SHA-256 digest of the three-byte message `abc`. -/
theorem sha256_abc_vector : hexEncode (sha256 [97, 98, 99]) =
    "ba7816bf8f01cfea414140de5dae2223b00361a396177a9cb410ff61f20015ad" := by decide

/-- Bridge between the Bool-valued and the propositional list-prefix tests. -/
theorem isPrefixOf_eq {l₁ l₂ : List Char} : l₁.isPrefixOf l₂ = true ↔ l₁ <+: l₂ :=
  List.isPrefixOf_iff_prefix

/-! ## Association-list lemmas -/
theorem lookupEntry_setEntry_self {α : Type} (l : List (String × α)) (k : String) (v : α) :
    lookupEntry (setEntry l k v) k = some v := by
  induction l with
  | nil => simp [setEntry, lookupEntry]
  | cons p rest ih =>
      by_cases h : p.1 = k
      · simp [setEntry, h, lookupEntry]
      · simp [setEntry, h, lookupEntry, ih]

theorem lookupEntry_setEntry_ne {α : Type} (l : List (String × α)) (k k' : String) (v : α)
    (h : k' ≠ k) : lookupEntry (setEntry l k v) k' = lookupEntry l k' := by
  have h2 : k ≠ k' := fun hh => h hh.symm
  induction l with
  | nil => simp [setEntry, lookupEntry, h2]
  | cons p rest ih =>
      by_cases hk : p.1 = k
      · have hp : p.1 ≠ k' := by rw [hk]; exact h2
        simp [setEntry, hk, lookupEntry, h2, hp]
      · simp [setEntry, hk, lookupEntry, ih]

theorem lookupEntry_removeEntry_self {α : Type} (l : List (String × α)) (k : String) :
    lookupEntry (removeEntry l k) k = none := by
  induction l with
  | nil => simp [removeEntry, lookupEntry]
  | cons p rest ih =>
      by_cases h : p.1 = k
      · simpa [removeEntry, h, lookupEntry] using ih
      · simpa [removeEntry, h, lookupEntry] using ih

theorem lookupEntry_removeEntry_ne {α : Type} (l : List (String × α)) (k k' : String)
    (h : k' ≠ k) : lookupEntry (removeEntry l k) k' = lookupEntry l k' := by
  induction l with
  | nil => simp [removeEntry, lookupEntry]
  | cons p rest ih =>
      have h2 : k ≠ k' := fun hh => h hh.symm
      by_cases hk : p.1 = k
      · simpa [removeEntry, List.filter_cons, hk, lookupEntry, h2] using ih
      · by_cases hk' : p.1 = k'
        · simp [removeEntry, List.filter_cons, hk, lookupEntry, hk', h]
        · simpa [removeEntry, List.filter_cons, hk, lookupEntry, hk'] using ih

/-! ## Auxiliary facts about the operations -/
theorem validate_error_form (name : String) (e : AppError)
    (h : validate_bucket_name name = .error e) : ∃ r, e = .InvalidBucketName r := by
  unfold validate_bucket_name at h
  split_ifs at h <;> (injection h with h2; exact ⟨_, h2.symm⟩)

theorem scan_step_lookup (now : Nat) (name' : String) (dir' : BucketDir)
    (rest : List (String × BucketDir)) (name : String) (hne : name' ≠ name) :
    lookupEntry (scan_buckets now ((name', dir') :: rest)).1 name =
      lookupEntry (scan_buckets now rest).1 name ∧
    lookupEntry (scan_buckets now ((name', dir') :: rest)).2 name =
      lookupEntry (scan_buckets now rest).2 name := by
  by_cases hd : name'.data.head? = some '.'
  · simp [scan_buckets, hd, lookupEntry, hne]
  · rcases hmeta : dir'.bucketMetaFile with _ | bm
    · simp [scan_buckets, hd, hmeta, lookupEntry, hne]
    · rcases bm with b | _ <;> simp [scan_buckets, hd, hmeta, lookupEntry, hne]

/-! ## Claim theorems -/
/-- C2: for a bucket name present in the index, `delete_bucket` fails with a
storage error when the `objects/` tree is non-empty and in that case leaves the
whole state (bucket, index entry, objects) unchanged; when the tree is empty it
removes the bucket directory tree and the index entry; for an absent name it
fails with `BucketNotFound`. -/
theorem c2_delete_bucket_spec (s : EngineState) (name : String) :
    ((lookupEntry s.buckets name).isNone →
      delete_bucket s name = (.error (.BucketNotFound name), s)) ∧
    (∀ bkt, lookupEntry s.buckets name = some bkt →
      (((lookupEntry s.disk name).getD emptyDir).objects ≠ [] →
        delete_bucket s name =
          (.error (.StorageError "Bucket is not empty. Delete all objects first."), s)) ∧
      (((lookupEntry s.disk name).getD emptyDir).objects = [] →
        delete_bucket s name =
          (.ok (), ⟨removeEntry s.buckets name, removeEntry s.disk name⟩) ∧
        lookupEntry (removeEntry s.buckets name) name = none ∧
        lookupEntry (removeEntry s.disk name) name = none)) := by
  constructor
  · intro h
    simp [delete_bucket, h]
  · intro bkt hbkt
    have hn : (lookupEntry s.buckets name).isNone = false := by rw [hbkt]; rfl
    constructor
    · intro hne
      have hpos : ((lookupEntry s.disk name).getD emptyDir).objects.length > 0 :=
        List.length_pos.mpr hne
      simp [delete_bucket, hn, hpos]
    · intro he
      have h0 : ¬ ((lookupEntry s.disk name).getD emptyDir).objects.length > 0 := by
        rw [he]; simp
      refine ⟨?_, lookupEntry_removeEntry_self _ _, lookupEntry_removeEntry_self _ _⟩
      simp [delete_bucket, hn, h0]

/-- C2 witness: deleting the non-empty bucket of `sOneObj` fails with the
storage error and leaves the state unchanged; deleting the empty bucket of
`sEmptyBkt` succeeds and removes the index entry. -/
theorem c2_delete_bucket_spec_witness :
    delete_bucket sOneObj "bkt" =
      (.error (.StorageError "Bucket is not empty. Delete all objects first."), sOneObj) ∧
    lookupEntry ((delete_bucket sEmptyBkt "bkt").2).buckets "bkt" = none := by
  constructor
  · exact ((c2_delete_bucket_spec sOneObj "bkt").2
      ⟨"bkt", 0, "local", 1, 1⟩ (by decide)).1 (by decide)
  · have h := ((c2_delete_bucket_spec sEmptyBkt "bkt").2 bEx (by decide)).2 (by decide)
    rw [h.1]
    exact h.2.1

/-- C6 counterexample: the start-up scan indexes a directory named `AB`
without validating it, and `create_bucket` validates the name before the
existence check, so on the reachable state `sBad` the name `AB` is present in
the index yet `create_bucket` fails with `InvalidBucketName`, not
`BucketAlreadyExists`. -/
theorem c6_create_bucket_counterexample :
    lookupEntry sBad.buckets "AB" = some (create_bucket_meta 0 "AB") ∧
    (create_bucket sBad 5 "AB" "local").1 =
      .error (.InvalidBucketName "Bucket name must be between 3 and 63 characters") ∧
    (create_bucket sBad 5 "AB" "local").1 ≠ .error (.BucketAlreadyExists "AB") := by
  refine ⟨by decide, by decide, by decide⟩

/-- C6 (amended): `create_bucket` validates the name before consulting the
index, so any name rejected by validation fails with `InvalidBucketName`
(even if present in the index) and any valid name present in the index fails
with `BucketAlreadyExists`; in both cases the state is unchanged. -/
theorem c6_create_bucket_amended (s : EngineState) (now : Nat) (name region : String) :
    (∀ e, validate_bucket_name name = .error e →
      create_bucket s now name region = (.error e, s) ∧ ∃ r, e = .InvalidBucketName r) ∧
    (∀ bkt, validate_bucket_name name = .ok () → lookupEntry s.buckets name = some bkt →
      create_bucket s now name region = (.error (.BucketAlreadyExists name), s)) := by
  constructor
  · intro e he
    refine ⟨?_, validate_error_form name e he⟩
    simp [create_bucket, he]
  · intro bkt hv hbkt
    have hs : (lookupEntry s.buckets name).isSome = true := by rw [hbkt]; rfl
    simp [create_bucket, hv, hs]

/-- C6 witness: creating `AB` on `sBad` fails with `InvalidBucketName` leaving
the state unchanged, and creating the existing valid name `bkt` on `sEmptyBkt`
fails with `BucketAlreadyExists` leaving the state unchanged. -/
theorem c6_create_bucket_amended_witness :
    create_bucket sBad 5 "AB" "local" =
      (.error (.InvalidBucketName "Bucket name must be between 3 and 63 characters"), sBad) ∧
    create_bucket sEmptyBkt 5 "bkt" "local" =
      (.error (.BucketAlreadyExists "bkt"), sEmptyBkt) := by
  constructor
  · exact ((c6_create_bucket_amended sBad 5 "AB" "local").1 _ (by decide)).1
  · exact (c6_create_bucket_amended sEmptyBkt 5 "bkt" "local").2 bEx (by decide) (by decide)

/-- C7: during the start-up scan, a candidate bucket directory whose
`.bucket_meta.json` is malformed is repaired (a fresh descriptor is
synthesized during the directory scan) and kept in the index, never silently
dropped and with no error; when the metadata file is absent, a fresh
descriptor (creation time now, region "local", zero counts) is synthesized,
indexed and persisted back to disk. -/
theorem c7_scan_buckets_repair (now : Nat) (rootDirs : List (String × BucketDir))
    (hnd : (rootDirs.map Prod.fst).Nodup) (name : String) (dir : BucketDir)
    (hmem : (name, dir) ∈ rootDirs) (hdot : name.toList.head? ≠ some '.') :
    (dir.bucketMetaFile = some .malformed →
      lookupEntry (scan_buckets now rootDirs).1 name = some (create_bucket_meta now name)) ∧
    (dir.bucketMetaFile = none →
      lookupEntry (scan_buckets now rootDirs).1 name = some (create_bucket_meta now name) ∧
      lookupEntry (scan_buckets now rootDirs).2 name =
        some { dir with bucketMetaFile := some (.wellFormed (create_bucket_meta now name)) } ∧
      create_bucket_meta now name =
        { name := name, created_at := now, region := "local",
          object_count := 0, total_size := 0 }) := by
  induction rootDirs with
  | nil => cases hmem
  | cons p rest ih =>
      obtain ⟨name', dir'⟩ := p
      rcases List.mem_cons.mp hmem with heq | htail
      · injection heq with h1 h2
        subst h1
        subst h2
        have hdot2 : ¬ name.data.head? = some '.' := hdot
        constructor
        · intro hm
          simp [scan_buckets, hdot2, hm, lookupEntry]
        · intro hm
          refine ⟨?_, ?_, rfl⟩ <;> simp [scan_buckets, hdot2, hm, lookupEntry]
      · obtain ⟨hnd1, hnd2⟩ := List.nodup_cons.mp hnd
        have hne : name' ≠ name := by
          intro hcontr
          exact hnd1 (hcontr ▸ List.mem_map.mpr ⟨(name, dir), htail, rfl⟩)
        have ihr := ih hnd2 htail
        have hstep := scan_step_lookup now name' dir' rest name hne
        constructor
        · intro hm
          rw [hstep.1]
          exact ihr.1 hm
        · intro hm
          refine ⟨?_, ?_, rfl⟩
          · rw [hstep.1]
            exact (ihr.2 hm).1
          · rw [hstep.2]
            exact (ihr.2 hm).2.1

/-- C7 witness: scanning a root with a malformed `.bucket_meta.json` under
`okbucket` and a missing one under `fresh` repairs the former in the index and
synthesizes-and-persists a descriptor for the latter. -/
theorem c7_scan_buckets_repair_witness :
    lookupEntry (scan_buckets 4 [("okbucket", ⟨[], [], some .malformed⟩),
      ("fresh", emptyDir)]).1 "okbucket" = some (create_bucket_meta 4 "okbucket") ∧
    lookupEntry (scan_buckets 4 [("okbucket", ⟨[], [], some .malformed⟩),
      ("fresh", emptyDir)]).2 "fresh" =
      some ⟨[], [], some (.wellFormed (create_bucket_meta 4 "fresh"))⟩ := by
  constructor
  · exact (c7_scan_buckets_repair 4 _ (by decide) "okbucket" ⟨[], [], some .malformed⟩
      (by decide) (by decide)).1 rfl
  · exact ((c7_scan_buckets_repair 4 _ (by decide) "fresh" emptyDir
      (by decide) (by decide)).2 rfl).2.1

/-- C9: `put_object` checks bucket existence before validating the key, so on
an absent bucket it returns `BucketNotFound` whatever the key is — never
`InvalidObjectKey`. -/
theorem c9_put_object_bucket_first (s : EngineState) (now : Nat) (bucket key : String)
    (data : List Nat) (ct : Option String) (md : List (String × String))
    (h : lookupEntry s.buckets bucket = none) :
    put_object s now bucket key data ct md = (.error (.BucketNotFound bucket), s) ∧
    ∀ r, (put_object s now bucket key data ct md).1 ≠ .error (.InvalidObjectKey r) := by
  have hn : (lookupEntry s.buckets bucket).isNone = true := by rw [h]; rfl
  have hp : put_object s now bucket key data ct md = (.error (.BucketNotFound bucket), s) := by
    simp [put_object, hn]
  exact ⟨hp, fun r hr => by rw [hp] at hr; cases hr⟩

/-- C9 witness: on an engine with no buckets, putting under bucket `b` with
the (invalid) empty key fails with `BucketNotFound`, not `InvalidObjectKey`. -/
theorem c9_put_object_bucket_first_witness :
    put_object ⟨[], []⟩ 0 "b" "" [] none [] = (.error (.BucketNotFound "b"), ⟨[], []⟩) ∧
    (put_object ⟨[], []⟩ 0 "b" "" [] none []).1 ≠
      .error (.InvalidObjectKey "Key must be between 1 and 1024 characters") :=
  ⟨(c9_put_object_bucket_first ⟨[], []⟩ 0 "b" "" [] none [] rfl).1,
   (c9_put_object_bucket_first ⟨[], []⟩ 0 "b" "" [] none [] rfl).2 _⟩

theorem charOk_lt128 (c : Char)
    (h : (97 ≤ c.toNat ∧ c.toNat ≤ 122) ∨ (48 ≤ c.toNat ∧ c.toNat ≤ 57) ∨ c = '-' ∨ c = '.') :
    c.toNat < 128 := by
  rcases h with ⟨_, h2⟩ | ⟨_, h2⟩ | rfl | rfl <;> first | omega | decide

theorem encodeChar_ascii (c : Char) (h : c.toNat < 128) : encodeChar c = [c.toNat] := by
  simp [encodeChar, h]

theorem utf8L_length_of_ascii (l : List Char) (h : ∀ c ∈ l, c.toNat < 128) :
    (utf8L l).length = l.length := by
  induction l with
  | nil => rfl
  | cons c rest ih =>
      have hc := h c (List.mem_cons_self c rest)
      have ihr := ih fun x hx => h x (List.mem_cons_of_mem _ hx)
      simp [utf8L, List.flatten_cons, encodeChar_ascii c hc] at *
      omega

theorem utf8Len_of_ascii (name : String) (h : ∀ c ∈ name.toList, c.toNat < 128) :
    utf8Len name = name.toList.length :=
  utf8L_length_of_ascii name.toList h

theorem validate_ok_iff (name : String) :
    validate_bucket_name name = .ok () ↔ bucketNameOk name := by
  constructor
  · intro h
    unfold validate_bucket_name at h
    split_ifs at h with h1 h2 h3
    have hchars : ∀ c ∈ name.toList,
        (97 ≤ c.toNat ∧ c.toNat ≤ 122) ∨ (48 ≤ c.toNat ∧ c.toNat ≤ 57) ∨ c = '-' ∨ c = '.' := by
      intro c hc
      have := (List.all_eq_true.mp h2) c hc
      simpa [beq_iff_eq, or_assoc] using this
    have hlen : utf8Len name = name.toList.length :=
      utf8Len_of_ascii name fun c hc => charOk_lt128 c (hchars c hc)
    rw [not_or] at h1 h3
    refine ⟨?_, ?_, hchars, h3.1, h3.2⟩ <;> omega
  · intro hok
    obtain ⟨hlen3, hlen63, hchars, hhead, hlast⟩ := hok
    have hlen : utf8Len name = name.toList.length :=
      utf8Len_of_ascii name fun c hc => charOk_lt128 c (hchars c hc)
    have h1 : ¬ (utf8Len name < 3 ∨ utf8Len name > 63) := by omega
    have h2 : name.toList.all (fun c =>
        (97 ≤ c.toNat && c.toNat ≤ 122) || (48 ≤ c.toNat && c.toNat ≤ 57)
          || c == '-' || c == '.') = true := by
      rw [List.all_eq_true]
      intro c hc
      have := hchars c hc
      simpa [beq_iff_eq, or_assoc] using this
    have h3 : ¬ (name.toList.head? = some '-' ∨ name.toList.getLast? = some '-') := by
      rw [not_or]
      exact ⟨hhead, hlast⟩
    rw [validate_bucket_name, if_neg h1, if_neg (not_not_intro h2), if_neg h3]

theorem create_bucket_validate_error (s : EngineState) (now : Nat) (name region : String)
    (e : AppError) (he : validate_bucket_name name = .error e) :
    create_bucket s now name region = (.error e, s) := by
  simp [create_bucket, he]

theorem create_bucket_exists_error (s : EngineState) (now : Nat) (name region : String)
    (bkt : Bucket) (hv : validate_bucket_name name = .ok ())
    (hb : lookupEntry s.buckets name = some bkt) :
    create_bucket s now name region = (.error (.BucketAlreadyExists name), s) := by
  have hs : (lookupEntry s.buckets name).isSome = true := by rw [hb]; rfl
  simp [create_bucket, hv, hs]

theorem create_bucket_validate_ok (s : EngineState) (now : Nat) (name region : String)
    (hv : validate_bucket_name name = .ok ()) :
    (create_bucket s now name region).1 = .error (.BucketAlreadyExists name) ∨
    ∃ b, (create_bucket s now name region).1 = .ok b := by
  by_cases hb : (lookupEntry s.buckets name).isSome
  · left
    simp [create_bucket, hv, hb]
  · right
    have hb' : (lookupEntry s.buckets name).isSome = false := by simpa using hb
    have h1 : (create_bucket s now name region).1 = .ok
        { name := name, created_at := now, region := region,
          object_count := 0, total_size := 0 } := by
      simp [create_bucket, hv, hb']
    exact ⟨_, h1⟩

/-- C3: `validate_bucket_name` (and hence `create_bucket`) accepts a name iff
its length is between 3 and 63, every character is a lowercase ASCII letter,
a digit, a hyphen or a period, and the name neither starts nor ends with a
hyphen; otherwise the failure is `InvalidBucketName`. -/
theorem c3_validate_bucket_name (name : String) :
    (validate_bucket_name name = .ok () ↔ bucketNameOk name) ∧
    (¬ bucketNameOk name → ∃ r, validate_bucket_name name = .error (.InvalidBucketName r)) ∧
    (∀ (s : EngineState) (now : Nat) (region : String),
      (∃ r, (create_bucket s now name region).1 = .error (.InvalidBucketName r)) ↔
        ¬ bucketNameOk name) := by
  refine ⟨validate_ok_iff name, ?_, ?_⟩
  · intro hnot
    rcases hv : validate_bucket_name name with e | u
    · obtain ⟨r, hr⟩ := validate_error_form name e hv
      exact ⟨r, by rw [hr]⟩
    · exact absurd ((validate_ok_iff name).mp (by rw [hv])) hnot
  · intro s now region
    constructor
    · rintro ⟨r, hr⟩
      intro hok
      have hv : validate_bucket_name name = .ok () := (validate_ok_iff name).mpr hok
      rcases create_bucket_validate_ok s now name region hv with h | ⟨b, h⟩ <;>
        rw [h] at hr <;> cases hr
    · intro hnot
      rcases hv : validate_bucket_name name with e | u
      · obtain ⟨r, hr⟩ := validate_error_form name e hv
        subst hr
        exact ⟨r, by rw [create_bucket_validate_error s now name region _ hv]⟩
      · exact absurd ((validate_ok_iff name).mp (by rw [hv])) hnot

/-- C3 witness: `abc` is accepted; `AB` is rejected with `InvalidBucketName`. -/
theorem c3_validate_bucket_name_witness :
    validate_bucket_name "abc" = .ok () ∧
    ∃ r, validate_bucket_name "AB" = .error (.InvalidBucketName r) :=
  ⟨(c3_validate_bucket_name "abc").1.mpr (by decide),
   (c3_validate_bucket_name "AB").2.1 (by decide)⟩

set_option maxRecDepth 40000 in
/-- C8 counterexample: the code checks the UTF-8 byte length of the key, not
the character count: `key513` is non-empty with 513 characters (at most 1024),
yet `put_object` on an existing bucket rejects it with `InvalidObjectKey`, so
the claim, stated over characters, fails. -/
theorem c8_put_object_key_counterexample :
    key513.toList.length = 513 ∧ key513 ≠ "" ∧
    (put_object sEmptyBkt 0 "bkt" key513 [7] none []).1 =
      .error (.InvalidObjectKey "Key must be between 1 and 1024 characters") :=
  ⟨by decide, by decide, by decide⟩

/-- C8 (amended): on an existing bucket `put_object` fails with
`InvalidObjectKey` iff the key is empty or its UTF-8 byte length exceeds 1024,
and when it so fails the state (hence the filesystem) is unchanged. -/
theorem c8_put_object_key_validation (s : EngineState) (now : Nat) (bucket key : String)
    (data : List Nat) (ct : Option String) (md : List (String × String)) (bkt : Bucket)
    (hb : lookupEntry s.buckets bucket = some bkt) :
    ((∃ r, (put_object s now bucket key data ct md).1 = .error (.InvalidObjectKey r)) ↔
      utf8Len key = 0 ∨ utf8Len key > 1024) ∧
    (utf8Len key = 0 ∨ utf8Len key > 1024 →
      put_object s now bucket key data ct md =
        (.error (.InvalidObjectKey "Key must be between 1 and 1024 characters"), s)) := by
  have hn : (lookupEntry s.buckets bucket).isNone = false := by rw [hb]; rfl
  have hfail : utf8Len key = 0 ∨ utf8Len key > 1024 →
      put_object s now bucket key data ct md =
        (.error (.InvalidObjectKey "Key must be between 1 and 1024 characters"), s) := by
    intro hinv
    simp [put_object, hn, hinv]
  refine ⟨⟨?_, fun hinv => ⟨_, by rw [hfail hinv]⟩⟩, hfail⟩
  rintro ⟨r, hr⟩
  by_contra hval
  have hok : (put_object s now bucket key data ct md).1 = .ok
      { key := key, bucket := bucket, size := data.length,
        content_type := ct.getD (mimeGuess key), etag := etagOf data,
        last_modified := now, metadata := md } := by
    simp [put_object, hn, hval]
  rw [hok] at hr
  cases hr

/-- C8 witness: the empty key on an existing bucket fails with
`InvalidObjectKey` and leaves the state unchanged. -/
theorem c8_put_object_key_validation_witness :
    put_object sEmptyBkt 0 "bkt" "" [7] none [] =
      (.error (.InvalidObjectKey "Key must be between 1 and 1024 characters"), sEmptyBkt) :=
  (c8_put_object_key_validation sEmptyBkt 0 "bkt" "" [7] none [] bEx (by decide)).2
    (Or.inl (by decide))

/-! ## Put/get round trip (C1) -/
/-- C1: on an existing bucket and a valid key, `put_object` succeeds and
returns a descriptor whose ETag is the double-quoted lowercase hex SHA-256 of
the payload; `get_object` on the resulting state returns exactly the stored
bytes together with that descriptor; and repeating the put with the same
bytes yields the same ETag. -/
theorem c1_put_get_roundtrip (s : EngineState) (now now' : Nat) (bucket key : String)
    (data : List Nat) (ct : Option String) (md : List (String × String)) (bkt : Bucket)
    (hb : lookupEntry s.buckets bucket = some bkt)
    (hk0 : utf8Len key ≠ 0) (hk1 : utf8Len key ≤ 1024) :
    (put_object s now bucket key data ct md).1 =
      .ok { key := key, bucket := bucket, size := data.length,
            content_type := ct.getD (mimeGuess key),
            etag := "\"" ++ hexEncode (sha256 data) ++ "\"",
            last_modified := now, metadata := md } ∧
    get_object (put_object s now bucket key data ct md).2 now' bucket key =
      .ok ({ key := key, bucket := bucket, size := data.length,
             content_type := ct.getD (mimeGuess key),
             etag := "\"" ++ hexEncode (sha256 data) ++ "\"",
             last_modified := now, metadata := md }, data) ∧
    ∀ (now2 : Nat) (ct2 : Option String) (md2 : List (String × String)),
      (put_object (put_object s now bucket key data ct md).2 now2 bucket key data ct2 md2).1 =
        .ok { key := key, bucket := bucket, size := data.length,
              content_type := ct2.getD (mimeGuess key),
              etag := "\"" ++ hexEncode (sha256 data) ++ "\"",
              last_modified := now2, metadata := md2 } := by
  have hn : (lookupEntry s.buckets bucket).isNone = false := by rw [hb]; rfl
  have hval : ¬ (utf8Len key = 0 ∨ utf8Len key > 1024) := by omega
  refine ⟨?_, ?_, ?_⟩
  · simp [put_object, hn, hval, etagOf]
  · simp [put_object, get_object, get_object_meta, update_bucket_stats, hn, hval, hb,
      lookupEntry_setEntry_self, etagOf]
  · intro now2 ct2 md2
    simp [put_object, update_bucket_stats, hn, hval, hb, lookupEntry_setEntry_self, etagOf]

/-- C1 witness: round trip at a concrete state, key and payload. -/
theorem c1_put_get_roundtrip_witness :
    (put_object sEmptyBkt 1 "bkt" "k.txt" [7] none []).1 =
      .ok { key := "k.txt", bucket := "bkt", size := 1,
            content_type := (none : Option String).getD (mimeGuess "k.txt"),
            etag := "\"" ++ hexEncode (sha256 [7]) ++ "\"",
            last_modified := 1, metadata := [] } ∧
    get_object (put_object sEmptyBkt 1 "bkt" "k.txt" [7] none []).2 5 "bkt" "k.txt" =
      .ok ({ key := "k.txt", bucket := "bkt", size := 1,
             content_type := (none : Option String).getD (mimeGuess "k.txt"),
             etag := "\"" ++ hexEncode (sha256 [7]) ++ "\"",
             last_modified := 1, metadata := [] }, [7]) := by
  have h := c1_put_get_roundtrip sEmptyBkt 1 5 "bkt" "k.txt" [7] none [] bEx
    (by decide) (by decide) (by decide)
  exact ⟨h.1, h.2.1⟩

/-! ## UTF-8 boundary safety of the listing slice (C10) -/
theorem encodeChar_ne_nil (c : Char) : encodeChar c ≠ [] := by
  simp only [encodeChar]
  split_ifs <;> simp

theorem encodeChar_length_head (c : Char) :
    (encodeChar c).length = encSizeOfHead ((encodeChar c).headD 0) := by
  by_cases h1 : c.toNat < 0x80
  · simp [encodeChar, h1, encSizeOfHead]
  · by_cases h2 : c.toNat < 0x800
    · have ha : ¬ (0xC0 + c.toNat / 64 < 0x80) := by omega
      have hb : 0xC0 + c.toNat / 64 < 0xE0 := by omega
      simp [encodeChar, h1, h2, encSizeOfHead, ha, hb]
    · by_cases h3 : c.toNat < 0x10000
      · have ha : ¬ (0xE0 + c.toNat / 4096 < 0x80) := by omega
        have hb : ¬ (0xE0 + c.toNat / 4096 < 0xE0) := by omega
        have hc : 0xE0 + c.toNat / 4096 < 0xF0 := by omega
        simp [encodeChar, h1, h2, h3, encSizeOfHead, ha, hb, hc]
      · have ha : ¬ (0xF0 + c.toNat / 262144 < 0x80) := by omega
        have hb : ¬ (0xF0 + c.toNat / 262144 < 0xE0) := by omega
        have hc : ¬ (0xF0 + c.toNat / 262144 < 0xF0) := by omega
        simp [encodeChar, h1, h2, h3, encSizeOfHead, ha, hb, hc]

theorem encodeChar_append_inj (c d : Char) (xs ys : List Nat)
    (h : encodeChar c ++ xs = encodeChar d ++ ys) :
    encodeChar c = encodeChar d ∧ xs = ys := by
  have hhead : (encodeChar c).headD 0 = (encodeChar d).headD 0 := by
    have h2 := congrArg (fun l => l.headD 0) h
    rcases hc : encodeChar c with _ | ⟨b, bs⟩
    · exact absurd hc (encodeChar_ne_nil c)
    · rcases hd : encodeChar d with _ | ⟨b', bs'⟩
      · exact absurd hd (encodeChar_ne_nil d)
      · simp only [hc, hd, List.cons_append, List.headD_cons] at h2 ⊢
        exact h2
  have hlen : (encodeChar c).length = (encodeChar d).length := by
    rw [encodeChar_length_head c, encodeChar_length_head d, hhead]
  exact List.append_inj h hlen

theorem decodeEnc_encodeChar (c : Char) : decodeEnc (encodeChar c) = c.toNat := by
  by_cases h1 : c.toNat < 0x80
  · simp [encodeChar, h1, decodeEnc]
  · by_cases h2 : c.toNat < 0x800
    · simp only [encodeChar, h1, h2, if_false, if_true, decodeEnc]
      omega
    · by_cases h3 : c.toNat < 0x10000
      · simp only [encodeChar, h1, h2, h3, if_false, if_true, decodeEnc]
        omega
      · simp only [encodeChar, h1, h2, h3, if_false, decodeEnc]
        omega

theorem encodeChar_inj (c d : Char) (h : encodeChar c = encodeChar d) : c = d := by
  have hn : c.toNat = d.toNat := by
    rw [← decodeEnc_encodeChar c, ← decodeEnc_encodeChar d, h]
  calc c = Char.ofNat c.toNat := (Char.ofNat_toNat c).symm
    _ = Char.ofNat d.toNat := by rw [hn]
    _ = d := Char.ofNat_toNat d

theorem utf8L_append (a b : List Char) : utf8L (a ++ b) = utf8L a ++ utf8L b := by
  simp [utf8L]

/-- UTF-8 is prefix-determined: if the bytes of `cs` are a byte prefix of the
bytes of `ds`, then `cs` is a character prefix of `ds` and the remaining bytes
are exactly the encoding of the remaining characters. -/
theorem utf8L_prefix (cs : List Char) :
    ∀ (ds : List Char) (B : List Nat), utf8L cs ++ B = utf8L ds →
      ∃ es, ds = cs ++ es ∧ B = utf8L es := by
  induction cs with
  | nil =>
      intro ds B h
      exact ⟨ds, rfl, by simpa [utf8L] using h⟩
  | cons c cs ih =>
      intro ds B h
      cases ds with
      | nil =>
          exfalso
          have h0 : encodeChar c ++ (utf8L cs ++ B) = [] := by
            simpa [utf8L, List.flatten_cons, List.append_assoc] using h
          exact encodeChar_ne_nil c (List.append_eq_nil.mp h0).1
      | cons d ds =>
          have h' : encodeChar c ++ (utf8L cs ++ B) = encodeChar d ++ utf8L ds := by
            simpa [utf8L, List.flatten_cons, List.append_assoc] using h
          obtain ⟨henc, htail⟩ := encodeChar_append_inj c d _ _ h'
          obtain ⟨es, h1, h2⟩ := ih ds B htail
          refine ⟨es, ?_, h2⟩
          rw [encodeChar_inj c d henc, h1, List.cons_append]

/-- C10: the byte slice `&rel[prefix.len()..]` in `walk_objects` is safe and
agrees with the character-level model.  The Rust byte-prefix test
(`rel.starts_with(prefix)`) holds exactly when the model's guard
(`pre.toList.isPrefixOf rel.toList` in `classifyKey`) does, and whenever it
holds the byte position `prefix.len()` is in bounds and on a character
boundary: the bytes from that position are precisely the UTF-8 encoding of
the character-level suffix that the model slices off. -/
theorem c10_walk_slice_safe (pre rel : String) :
    (utf8Bytes pre <+: utf8Bytes rel ↔ pre.toList.isPrefixOf rel.toList = true) ∧
    (utf8Bytes pre <+: utf8Bytes rel →
      utf8Len pre ≤ (utf8Bytes rel).length ∧
      rel.toList.take pre.toList.length = pre.toList ∧
      utf8L (rel.toList.drop pre.toList.length) = (utf8Bytes rel).drop (utf8Len pre)) := by
  have main : utf8Bytes pre <+: utf8Bytes rel →
      ∃ es, rel.toList = pre.toList ++ es := by
    rintro ⟨B, hB⟩
    obtain ⟨es, h1, _⟩ := utf8L_prefix pre.toList rel.toList B hB
    exact ⟨es, h1⟩
  constructor
  · constructor
    · intro hp
      obtain ⟨es, h1⟩ := main hp
      exact isPrefixOf_eq.mpr ⟨es, h1.symm⟩
    · intro hp
      obtain ⟨es, h1⟩ := isPrefixOf_eq.mp hp
      refine ⟨utf8L es, ?_⟩
      rw [utf8Bytes, utf8Bytes, ← h1, utf8L_append]
  · intro hp
    obtain ⟨es, h1⟩ := main hp
    refine ⟨hp.length_le, ?_, ?_⟩
    · rw [h1]
      exact List.take_left pre.toList es
    · rw [h1, List.drop_left]
      show utf8L es = (utf8Bytes rel).drop (utf8L pre.toList).length
      rw [utf8Bytes, h1, utf8L_append, List.drop_left]

/-- C10 witness: a multi-byte prefix on a concrete key; the byte suffix after
the prefix length is the encoding of the character suffix. -/
theorem c10_walk_slice_safe_witness :
    utf8L ("é/a".toList.drop "é/".toList.length) =
      (utf8Bytes "é/a").drop (utf8Len "é/") :=
  ((c10_walk_slice_safe "é/" "é/a").2
    ((c10_walk_slice_safe "é/" "é/a").1.mpr (by decide))).2.2

/-! ## Listing lemmas (C4, C5) -/
theorem findSub_some (pat : List Char) :
    ∀ (l : List Char) (i : Nat), findSub pat l = some i →
      pat.isPrefixOf (l.drop i) = true ∧ ∀ j < i, ¬ pat.isPrefixOf (l.drop j) = true := by
  intro l
  induction l with
  | nil =>
      intro i h
      by_cases hp : pat.isPrefixOf ([] : List Char) = true
      · simp [findSub, hp] at h
        subst h
        exact ⟨hp, by omega⟩
      · simp [findSub, hp] at h
  | cons c rest ih =>
      intro i h
      by_cases hp : pat.isPrefixOf (c :: rest) = true
      · simp [findSub, hp] at h
        subst h
        exact ⟨hp, by omega⟩
      · simp [findSub, hp] at h
        obtain ⟨i', hi', rfl⟩ := h
        obtain ⟨h1, h2⟩ := ih i' hi'
        refine ⟨h1, ?_⟩
        intro j hj
        cases j with
        | zero => exact hp
        | succ j' => exact h2 j' (by omega)

theorem findSub_none (pat : List Char) :
    ∀ l : List Char, findSub pat l = none → ∀ j, ¬ pat.isPrefixOf (l.drop j) = true := by
  intro l
  induction l with
  | nil =>
      intro h j
      by_cases hp : pat.isPrefixOf ([] : List Char) = true
      · simp [findSub, hp] at h
      · simpa using hp
  | cons c rest ih =>
      intro h j
      by_cases hp : pat.isPrefixOf (c :: rest) = true
      · simp [findSub, hp] at h
      · simp [findSub, hp] at h
        cases j with
        | zero => exact hp
        | succ j' => exact ih h j'

theorem findSub_eq_some (pat : List Char) :
    ∀ (l : List Char) (i : Nat), pat.isPrefixOf (l.drop i) = true →
      (∀ j < i, ¬ pat.isPrefixOf (l.drop j) = true) → findSub pat l = some i := by
  intro l
  induction l with
  | nil =>
      intro i h1 h2
      cases i with
      | zero =>
          have hp : pat = [] := by simpa using h1
          simp [findSub, hp]
      | succ i' =>
          exfalso
          exact h2 0 (by omega) (by simpa using h1)
  | cons c rest ih =>
      intro i h1 h2
      cases i with
      | zero =>
          have hp : pat.isPrefixOf (c :: rest) = true := by simpa using h1
          have hp' : pat <+: c :: rest := isPrefixOf_eq.mp hp
          simp [findSub, hp, hp']
      | succ i' =>
          have hp : ¬ pat.isPrefixOf (c :: rest) = true := h2 0 (by omega)
          have hp' : ¬ pat <+: c :: rest := fun hc => hp (isPrefixOf_eq.mpr hc)
          have hr : findSub pat rest = some i' :=
            ih i' h1 fun j hj => h2 (j + 1) (by omega)
          simp [findSub, hp, hp', hr]

/-- `d` occurs as a contiguous substring of `l` iff it is a prefix of some
suffix of `l`. -/
theorem isInfix_iff_exists_drop (pat l : List Char) :
    pat <:+: l ↔ ∃ j, pat <+: l.drop j := by
  constructor
  · rintro ⟨sl, tl, rfl⟩
    refine ⟨sl.length, ?_⟩
    rw [List.append_assoc, List.drop_left]
    exact List.prefix_append pat tl
  · rintro ⟨j, t, ht⟩
    exact ⟨l.take j, t, by rw [List.append_assoc, ht, List.take_append_drop]⟩

theorem walk_mem_objects (s : EngineState) (now : Nat) (bucket pre : String)
    (delim : Option String) (entries : List (String × List Nat)) (m : ObjectMeta) :
    m ∈ (walk_objects s now bucket pre delim entries).1 ↔
      ∃ k data, (k, data) ∈ entries ∧ classifyKey pre delim k = some none ∧
        get_object_meta s now bucket k = .ok m := by
  induction entries with
  | nil => simp [walk_objects]
  | cons e rest ih =>
      obtain ⟨k, data⟩ := e
      rcases hcl : classifyKey pre delim k with _ | cpo
      · simp only [walk_objects, hcl]
        rw [ih]
        constructor
        · rintro ⟨k', d', hmem, h1, h2⟩
          exact ⟨k', d', List.mem_cons_of_mem _ hmem, h1, h2⟩
        · rintro ⟨k', d', hmem, h1, h2⟩
          rcases List.mem_cons.mp hmem with heq | hmem'
          · injection heq with e1 e2
            subst e1
            rw [hcl] at h1
            cases h1
          · exact ⟨k', d', hmem', h1, h2⟩
      · rcases cpo with _ | cp
        · rcases hm : get_object_meta s now bucket k with e | m'
          · simp only [walk_objects, hcl, hm]
            rw [ih]
            constructor
            · rintro ⟨k', d', hmem, h1, h2⟩
              exact ⟨k', d', List.mem_cons_of_mem _ hmem, h1, h2⟩
            · rintro ⟨k', d', hmem, h1, h2⟩
              rcases List.mem_cons.mp hmem with heq | hmem'
              · injection heq with e1 e2
                subst e1
                rw [hm] at h2
                cases h2
              · exact ⟨k', d', hmem', h1, h2⟩
          · simp only [walk_objects, hcl, hm, List.mem_cons]
            rw [ih]
            constructor
            · rintro (rfl | ⟨k', d', hmem, h1, h2⟩)
              · exact ⟨k, data, Or.inl rfl, hcl, hm⟩
              · exact ⟨k', d', Or.inr hmem, h1, h2⟩
            · rintro ⟨k', d', hmem, h1, h2⟩
              rcases hmem with heq | hmem'
              · injection heq with e1 e2
                subst e1
                rw [hm] at h2
                injection h2 with h3
                exact Or.inl h3.symm
              · exact Or.inr ⟨k', d', hmem', h1, h2⟩
        · simp only [walk_objects, hcl]
          rw [ih]
          constructor
          · rintro ⟨k', d', hmem, h1, h2⟩
            exact ⟨k', d', List.mem_cons_of_mem _ hmem, h1, h2⟩
          · rintro ⟨k', d', hmem, h1, h2⟩
            rcases List.mem_cons.mp hmem with heq | hmem'
            · injection heq with e1 e2
              subst e1
              rw [hcl] at h1
              injection h1 with h3
              cases h3
            · exact ⟨k', d', hmem', h1, h2⟩

theorem walk_mem_cps (s : EngineState) (now : Nat) (bucket pre : String)
    (delim : Option String) (entries : List (String × List Nat)) (cp : String) :
    cp ∈ (walk_objects s now bucket pre delim entries).2 ↔
      ∃ k data, (k, data) ∈ entries ∧ classifyKey pre delim k = some (some cp) := by
  induction entries with
  | nil => simp [walk_objects]
  | cons e rest ih =>
      obtain ⟨k, data⟩ := e
      rcases hcl : classifyKey pre delim k with _ | cpo
      · simp only [walk_objects, hcl]
        rw [ih]
        constructor
        · rintro ⟨k', d', hmem, h1⟩
          exact ⟨k', d', List.mem_cons_of_mem _ hmem, h1⟩
        · rintro ⟨k', d', hmem, h1⟩
          rcases List.mem_cons.mp hmem with heq | hmem'
          · injection heq with e1 e2
            subst e1
            rw [hcl] at h1
            cases h1
          · exact ⟨k', d', hmem', h1⟩
      · rcases cpo with _ | cp'
        · rcases hm : get_object_meta s now bucket k with e | m'
          · simp only [walk_objects, hcl, hm]
            rw [ih]
            constructor
            · rintro ⟨k', d', hmem, h1⟩
              exact ⟨k', d', List.mem_cons_of_mem _ hmem, h1⟩
            · rintro ⟨k', d', hmem, h1⟩
              rcases List.mem_cons.mp hmem with heq | hmem'
              · injection heq with e1 e2
                subst e1
                rw [hcl] at h1
                injection h1 with h3
                cases h3
              · exact ⟨k', d', hmem', h1⟩
          · simp only [walk_objects, hcl, hm]
            rw [ih]
            constructor
            · rintro ⟨k', d', hmem, h1⟩
              exact ⟨k', d', List.mem_cons_of_mem _ hmem, h1⟩
            · rintro ⟨k', d', hmem, h1⟩
              rcases List.mem_cons.mp hmem with heq | hmem'
              · injection heq with e1 e2
                subst e1
                rw [hcl] at h1
                injection h1 with h3
                cases h3
              · exact ⟨k', d', hmem', h1⟩
        · simp only [walk_objects, hcl, List.mem_cons]
          rw [ih]
          constructor
          · rintro (rfl | ⟨k', d', hmem, h1⟩)
            · exact ⟨k, data, Or.inl rfl, hcl⟩
            · exact ⟨k', d', Or.inr hmem, h1⟩
          · rintro ⟨k', d', hmem, h1⟩
            rcases hmem with heq | hmem'
            · injection heq with e1 e2
              subst e1
              rw [hcl] at h1
              injection h1 with h3
              injection h3 with h4
              exact Or.inl h4.symm
            · exact Or.inr ⟨k', d', hmem', h1⟩

theorem mem_dedupAdj {α : Type} [DecidableEq α] (l : List α) (a : α) :
    a ∈ dedupAdj l ↔ a ∈ l := by
  induction l with
  | nil => simp [dedupAdj]
  | cons x rest ih =>
      cases rest with
      | nil => simp [dedupAdj]
      | cons y rest' =>
          by_cases hxy : x = y
          · subst hxy
            rw [show dedupAdj (x :: x :: rest') = dedupAdj (x :: rest') by simp [dedupAdj]]
            rw [ih]
            simp
          · rw [show dedupAdj (x :: y :: rest') = x :: dedupAdj (y :: rest') by
              simp [dedupAdj, hxy]]
            simp only [List.mem_cons] at *
            rw [ih]

theorem dedupAdj_head_sorted {α : Type} [DecidableEq α] [LinearOrder α] :
    ∀ (l : List α) (a : α), List.Sorted (· ≤ ·) (a :: l) →
      ∃ t, dedupAdj (a :: l) = a :: t ∧ List.Sorted (· < ·) (a :: t) := by
  intro l
  induction l with
  | nil => exact fun a _ => ⟨[], rfl, List.sorted_singleton a⟩
  | cons b rest ih =>
      intro a hs
      have hab : a ≤ b := (List.sorted_cons.mp hs).1 b (List.mem_cons_self b rest)
      have hs' : List.Sorted (· ≤ ·) (b :: rest) := (List.sorted_cons.mp hs).2
      obtain ⟨t, ht1, ht2⟩ := ih b hs'
      by_cases hab' : a = b
      · subst hab'
        exact ⟨t, by simpa [dedupAdj] using ht1, ht2⟩
      · refine ⟨b :: t, by simp [dedupAdj, hab', ht1], ?_⟩
        rw [List.sorted_cons]
        refine ⟨?_, ht2⟩
        intro c hc
        have hbc : b ≤ c ∨ b = c := by
          rcases List.mem_cons.mp hc with rfl | hc'
          · exact Or.inr rfl
          · exact Or.inl (le_of_lt ((List.sorted_cons.mp ht2).1 c hc'))
        have hab2 : a < b := lt_of_le_of_ne hab hab'
        rcases hbc with h | rfl
        · exact lt_of_lt_of_le hab2 h
        · exact hab2

theorem dedupAdj_sorted {α : Type} [DecidableEq α] [LinearOrder α] (l : List α)
    (h : List.Sorted (· ≤ ·) l) : List.Sorted (· < ·) (dedupAdj l) := by
  cases l with
  | nil => simp [dedupAdj]
  | cons a rest =>
      obtain ⟨t, ht1, ht2⟩ := dedupAdj_head_sorted rest a h
      rw [ht1]
      exact ht2

theorem char_eq_of_toNat_eq {a b : Char} (h : a.toNat = b.toNat) : a = b :=
  calc a = Char.ofNat a.toNat := (Char.ofNat_toNat a).symm
    _ = Char.ofNat b.toNat := by rw [h]
    _ = b := Char.ofNat_toNat b

theorem lexLe_iff (as : List Char) : ∀ bs : List Char,
    lexLe as bs = true ↔ ¬ List.Lex (· < ·) bs as := by
  induction as with
  | nil =>
      intro bs
      simp only [lexLe]
      constructor
      · intro _ hlex
        nomatch hlex
      · intro _
        trivial
  | cons a as ih =>
      intro bs
      cases bs with
      | nil =>
          simp only [lexLe]
          constructor
          · intro h
            cases h
          · intro h
            exact absurd List.Lex.nil h
      | cons b bs =>
          by_cases h1 : a.toNat < b.toNat
          · rw [show lexLe (a :: as) (b :: bs) = true by simp [lexLe, h1]]
            constructor
            · intro _ hlex
              cases hlex with
              | rel hr => exact absurd (show b.toNat < a.toNat from hr) (by omega)
              | cons _ => omega
            · intro _
              trivial
          · by_cases h2 : b.toNat < a.toNat
            · rw [show lexLe (a :: as) (b :: bs) = false by simp [lexLe, h1, h2]]
              constructor
              · intro h
                cases h
              · intro h
                exact absurd (List.Lex.rel (show b < a from h2)) h
            · have hab : a = b := char_eq_of_toNat_eq (by omega)
              subst hab
              rw [show lexLe (a :: as) (a :: bs) = lexLe as bs by simp [lexLe]]
              rw [ih bs]
              constructor
              · intro h hlex
                exact h (List.Lex.cons_iff.mp hlex)
              · intro h hlex
                exact h (List.Lex.cons_iff.mpr hlex)

theorem strLe_iff (a b : String) : strLe a b = true ↔ a ≤ b := by
  rw [strLe, lexLe_iff]
  constructor
  · intro h
    refine le_of_not_lt fun hlt => h ?_
    exact String.lt_iff_toList_lt.mp hlt
  · intro h hlex
    exact not_lt.mpr h (String.lt_iff_toList_lt.mpr hlex)

instance : IsTotal ObjectMeta (fun a b => strLe a.key b.key = true) :=
  ⟨fun a b => by
    rw [strLe_iff, strLe_iff]
    exact le_total a.key b.key⟩

instance : IsTrans ObjectMeta (fun a b => strLe a.key b.key = true) :=
  ⟨fun a b c h h' => by
    rw [strLe_iff] at *
    exact le_trans h h'⟩

instance : IsTotal String (fun a b => strLe a b = true) :=
  ⟨fun a b => by
    rw [strLe_iff, strLe_iff]
    exact le_total a b⟩

instance : IsTrans String (fun a b => strLe a b = true) :=
  ⟨fun a b c h h' => by
    rw [strLe_iff] at *
    exact le_trans h h'⟩

/-- Unfolding of `classifyKey` with no delimiter (definitionally equal). -/
theorem classifyKey_none_eq (pre k : String) :
    classifyKey pre none k =
      if pre.toList.isPrefixOf k.toList then some none else none := rfl

/-- Unfolding of `classifyKey` with a delimiter (definitionally equal). -/
theorem classifyKey_some_eq (pre d k : String) :
    classifyKey pre (some d) k =
      if pre.toList.isPrefixOf k.toList then
        (match findSub d.toList (k.toList.drop pre.toList.length) with
         | some i =>
             some (some ((pre.toList ++ (k.toList.drop pre.toList.length).take i
               ++ d.toList).asString))
         | none => some none)
      else none := rfl

theorem classifyKey_some_cases (pre d k : String)
    (hp : pre.toList.isPrefixOf k.toList = true) :
    (∀ i, findSub d.toList (k.toList.drop pre.toList.length) = some i →
      classifyKey pre (some d) k =
        some (some ((pre.toList ++ (k.toList.drop pre.toList.length).take i
          ++ d.toList).asString))) ∧
    (findSub d.toList (k.toList.drop pre.toList.length) = none →
      classifyKey pre (some d) k = some none) := by
  constructor
  · intro i hf
    rw [classifyKey_some_eq, if_pos hp, hf]
  · intro hf
    rw [classifyKey_some_eq, if_pos hp, hf]

theorem classifyKey_skip_iff (pre : String) (delim : Option String) (k : String) :
    classifyKey pre delim k = none ↔ ¬ pre.toList <+: k.toList := by
  constructor
  · intro h hpre
    have hp : pre.toList.isPrefixOf k.toList = true := isPrefixOf_eq.mpr hpre
    rcases delim with _ | d
    · rw [classifyKey_none_eq, if_pos hp] at h
      cases h
    · rcases hf : findSub d.toList (k.toList.drop pre.toList.length) with _ | i
      · rw [(classifyKey_some_cases pre d k hp).2 hf] at h
        cases h
      · rw [(classifyKey_some_cases pre d k hp).1 i hf] at h
        cases h
  · intro hnp
    have hp : ¬ pre.toList.isPrefixOf k.toList = true :=
      fun hc => hnp (isPrefixOf_eq.mp hc)
    rcases delim with _ | d
    · rw [classifyKey_none_eq, if_neg hp]
    · rw [classifyKey_some_eq, if_neg hp]

theorem classifyKey_leaf_iff (pre d k : String) :
    classifyKey pre (some d) k = some none ↔
      (pre.toList <+: k.toList ∧
       ¬ d.toList <:+: k.toList.drop pre.toList.length) := by
  constructor
  · intro h
    have hp : pre.toList.isPrefixOf k.toList = true := by
      by_contra hq
      rw [classifyKey_some_eq, if_neg hq] at h
      cases h
    rcases hf : findSub d.toList (k.toList.drop pre.toList.length) with _ | i
    · refine ⟨isPrefixOf_eq.mp hp, ?_⟩
      rw [isInfix_iff_exists_drop]
      rintro ⟨j, hj⟩
      exact findSub_none d.toList _ hf j (isPrefixOf_eq.mpr hj)
    · exfalso
      rw [(classifyKey_some_cases pre d k hp).1 i hf] at h
      injection h with h1
      cases h1
  · rintro ⟨hpre, hni⟩
    have hp : pre.toList.isPrefixOf k.toList = true := isPrefixOf_eq.mpr hpre
    rcases hf : findSub d.toList (k.toList.drop pre.toList.length) with _ | i
    · exact (classifyKey_some_cases pre d k hp).2 hf
    · exfalso
      apply hni
      rw [isInfix_iff_exists_drop]
      exact ⟨i, isPrefixOf_eq.mp (findSub_some d.toList _ i hf).1⟩

theorem classifyKey_cp_iff (pre d k cp : String) :
    classifyKey pre (some d) k = some (some cp) ↔
      (pre.toList <+: k.toList ∧
       ∃ i, d.toList <+: (k.toList.drop pre.toList.length).drop i ∧
         (∀ j < i, ¬ d.toList <+: (k.toList.drop pre.toList.length).drop j) ∧
         cp = (pre.toList ++ (k.toList.drop pre.toList.length).take i
           ++ d.toList).asString) := by
  constructor
  · intro h
    have hp : pre.toList.isPrefixOf k.toList = true := by
      by_contra hq
      rw [classifyKey_some_eq, if_neg hq] at h
      cases h
    rcases hf : findSub d.toList (k.toList.drop pre.toList.length) with _ | i
    · exfalso
      rw [(classifyKey_some_cases pre d k hp).2 hf] at h
      injection h with h1
      cases h1
    · rw [(classifyKey_some_cases pre d k hp).1 i hf] at h
      injection h with h1
      injection h1 with h2
      obtain ⟨hocc, hmin⟩ := findSub_some d.toList _ i hf
      refine ⟨isPrefixOf_eq.mp hp, i,
        isPrefixOf_eq.mp hocc, ?_, h2.symm⟩
      intro j hj hc
      exact hmin j hj (isPrefixOf_eq.mpr hc)
  · rintro ⟨hpre, i', hocc', hmin', rfl⟩
    have hp : pre.toList.isPrefixOf k.toList = true := isPrefixOf_eq.mpr hpre
    have hf : findSub d.toList (k.toList.drop pre.toList.length) = some i' :=
      findSub_eq_some d.toList _ i' (isPrefixOf_eq.mpr hocc')
        fun j hj hc => hmin' j hj (isPrefixOf_eq.mp hc)
    exact (classifyKey_some_cases pre d k hp).1 i' hf

theorem list_objects_ok (s : EngineState) (now : Nat) (bucket pre : String)
    (delim : Option String) (maxKeys : Nat) (bkt : Bucket)
    (hb : lookupEntry s.buckets bucket = some bkt) :
    list_objects s now bucket pre delim maxKeys = .ok
      { bucket := bucket, pre := pre,
        objects := (List.insertionSort (fun a b => strLe a.key b.key = true)
          (walk_objects s now bucket pre delim
            ((lookupEntry s.disk bucket).getD emptyDir).objects).1).take maxKeys,
        common_prefixes := dedupAdj (List.insertionSort (fun a b : String => strLe a b = true)
          (walk_objects s now bucket pre delim
            ((lookupEntry s.disk bucket).getD emptyDir).objects).2),
        is_truncated := decide (maxKeys <
          (List.insertionSort (fun a b => strLe a.key b.key = true)
            (walk_objects s now bucket pre delim
              ((lookupEntry s.disk bucket).getD emptyDir).objects).1).length),
        max_keys := maxKeys } := by
  have hn : (lookupEntry s.buckets bucket).isNone = false := by rw [hb]; rfl
  simp [list_objects, hn]

/-- C4: with a delimiter, `list_objects` considers exactly the stored keys
that start with the prefix; a matching key whose suffix after the prefix
contains the delimiter is folded into the common prefix formed by the prefix,
the part of the suffix before the first delimiter occurrence, and the
delimiter, and is excluded from the object list; matching keys without the
delimiter appear as leaf objects with their metadata loaded as `get_object`
does; common prefixes are deduplicated and sorted, and objects are sorted by
key ascending.  On keys `photos/a.jpg`, `photos/b/c.jpg`, `docs/d.txt` with
prefix `photos/` and delimiter `/`, the result is exactly the object
`photos/a.jpg` and the common prefix `photos/b/`. -/
theorem c4_list_objects_delimiter :
    (∀ (s : EngineState) (now : Nat) (bucket pre d : String) (maxKeys : Nat) (bkt : Bucket),
      lookupEntry s.buckets bucket = some bkt →
      ∀ r, list_objects s now bucket pre (some d) maxKeys = .ok r →
        (∀ m ∈ r.objects, ∃ k data,
          (k, data) ∈ ((lookupEntry s.disk bucket).getD emptyDir).objects ∧
          pre.toList <+: k.toList ∧
          ¬ d.toList <:+: k.toList.drop pre.toList.length ∧
          get_object_meta s now bucket k = .ok m) ∧
        ((walk_objects s now bucket pre (some d)
            ((lookupEntry s.disk bucket).getD emptyDir).objects).1.length ≤ maxKeys →
          ∀ k data m, (k, data) ∈ ((lookupEntry s.disk bucket).getD emptyDir).objects →
            pre.toList <+: k.toList →
            ¬ d.toList <:+: k.toList.drop pre.toList.length →
            get_object_meta s now bucket k = .ok m → m ∈ r.objects) ∧
        (∀ cp, cp ∈ r.common_prefixes ↔ ∃ k data,
          (k, data) ∈ ((lookupEntry s.disk bucket).getD emptyDir).objects ∧
          pre.toList <+: k.toList ∧
          ∃ i, d.toList <+: (k.toList.drop pre.toList.length).drop i ∧
            (∀ j < i, ¬ d.toList <+: (k.toList.drop pre.toList.length).drop j) ∧
            cp = (pre.toList ++ (k.toList.drop pre.toList.length).take i
              ++ d.toList).asString) ∧
        (List.Sorted (· ≤ ·) (r.objects.map fun m => m.key) ∧
         List.Sorted (· < ·) r.common_prefixes ∧ r.common_prefixes.Nodup)) ∧
    Except.map (fun r => (r.objects.map fun m => m.key, r.common_prefixes))
      (list_objects sPhotos 9 "bkt" "photos/" (some "/") 1000) =
      .ok (["photos/a.jpg"], ["photos/b/"]) := by
  refine ⟨?_, by decide⟩
  intro s now bucket pre d maxKeys bkt hb r hr
  rw [list_objects_ok s now bucket pre (some d) maxKeys bkt hb] at hr
  injection hr with hr
  subst hr
  refine ⟨?_, ?_, ?_, ?_, ?_, ?_⟩
  · intro m hm
    have hm1 : m ∈ List.insertionSort (fun a b => strLe a.key b.key = true)
        (walk_objects s now bucket pre (some d)
          ((lookupEntry s.disk bucket).getD emptyDir).objects).1 :=
      List.take_subset _ _ hm
    have hm2 := (List.perm_insertionSort _ _).mem_iff.mp hm1
    obtain ⟨k, data, hk, hcl, hgm⟩ := (walk_mem_objects s now bucket pre (some d) _ m).mp hm2
    obtain ⟨hpre, hni⟩ := (classifyKey_leaf_iff pre d k).mp hcl
    exact ⟨k, data, hk, hpre, hni, hgm⟩
  · intro hlen k data m hk hpre hni hgm
    have hcl := (classifyKey_leaf_iff pre d k).mpr ⟨hpre, hni⟩
    have hm2 : m ∈ (walk_objects s now bucket pre (some d)
        ((lookupEntry s.disk bucket).getD emptyDir).objects).1 :=
      (walk_mem_objects s now bucket pre (some d) _ m).mpr ⟨k, data, hk, hcl, hgm⟩
    have hm1 := (List.perm_insertionSort
      (fun a b => strLe a.key b.key = true) _).mem_iff.mpr hm2
    have hlen2 : (List.insertionSort (fun a b => strLe a.key b.key = true)
        (walk_objects s now bucket pre (some d)
          ((lookupEntry s.disk bucket).getD emptyDir).objects).1).length ≤ maxKeys := by
      rw [(List.perm_insertionSort _ _).length_eq]
      exact hlen
    show m ∈ List.take maxKeys _
    rw [List.take_of_length_le hlen2]
    exact hm1
  · intro cp
    show cp ∈ dedupAdj _ ↔ _
    rw [mem_dedupAdj, (List.perm_insertionSort _ _).mem_iff,
      walk_mem_cps s now bucket pre (some d) _ cp]
    constructor
    · rintro ⟨k, data, hk, hcl⟩
      obtain ⟨hpre, hrest⟩ := (classifyKey_cp_iff pre d k cp).mp hcl
      exact ⟨k, data, hk, hpre, hrest⟩
    · rintro ⟨k, data, hk, hpre, hrest⟩
      exact ⟨k, data, hk, (classifyKey_cp_iff pre d k cp).mpr ⟨hpre, hrest⟩⟩
  · have hsort : List.Sorted (fun a b => strLe a.key b.key = true)
        (List.insertionSort (fun a b => strLe a.key b.key = true)
          (walk_objects s now bucket pre (some d)
            ((lookupEntry s.disk bucket).getD emptyDir).objects).1) :=
      List.sorted_insertionSort _ _
    have htake := List.Pairwise.sublist (List.take_sublist maxKeys _) hsort
    exact List.pairwise_map.mpr (htake.imp fun h => (strLe_iff _ _).mp h)
  · have hsort : List.Sorted (fun a b : String => strLe a b = true)
        (List.insertionSort (fun a b : String => strLe a b = true)
          (walk_objects s now bucket pre (some d)
            ((lookupEntry s.disk bucket).getD emptyDir).objects).2) :=
      List.sorted_insertionSort _ _
    exact dedupAdj_sorted _ (hsort.imp fun h => (strLe_iff _ _).mp h)
  · have hsort : List.Sorted (fun a b : String => strLe a b = true)
        (List.insertionSort (fun a b : String => strLe a b = true)
          (walk_objects s now bucket pre (some d)
            ((lookupEntry s.disk bucket).getD emptyDir).objects).2) :=
      List.sorted_insertionSort _ _
    exact (dedupAdj_sorted _ (hsort.imp fun h => (strLe_iff _ _).mp h)).nodup

/-- C4 witness: the general part applied at the concrete photos state. -/
theorem c4_list_objects_delimiter_witness :
    ∃ r, list_objects sPhotos 9 "bkt" "photos/" (some "/") 1000 = .ok r ∧
      (List.Sorted (· ≤ ·) (r.objects.map fun m => m.key) ∧
       List.Sorted (· < ·) r.common_prefixes ∧ r.common_prefixes.Nodup) := by
  refine ⟨_, list_objects_ok sPhotos 9 "bkt" "photos/" (some "/") 1000
    ⟨"bkt", 0, "local", 3, 4⟩ (by decide), ?_⟩
  exact ((c4_list_objects_delimiter.1 sPhotos 9 "bkt" "photos/" "/" 1000
    ⟨"bkt", 0, "local", 3, 4⟩ (by decide) _
    (list_objects_ok sPhotos 9 "bkt" "photos/" (some "/") 1000
      ⟨"bkt", 0, "local", 3, 4⟩ (by decide))).2.2.2)

/-- C5: the object list is truncated to at most `maxKeys` entries,
`is_truncated` is true iff the pre-truncation object count exceeds `maxKeys`,
and the common-prefixes list does not depend on `maxKeys`; with `maxKeys = 1`
over three matching objects, exactly one object is returned with
`is_truncated = true`. -/
theorem c5_list_objects_truncation :
    (∀ (s : EngineState) (now : Nat) (bucket pre : String) (delim : Option String)
       (maxKeys : Nat) (bkt : Bucket),
      lookupEntry s.buckets bucket = some bkt →
      ∀ r, list_objects s now bucket pre delim maxKeys = .ok r →
        r.objects.length ≤ maxKeys ∧
        (r.is_truncated = true ↔ maxKeys < (walk_objects s now bucket pre delim
          ((lookupEntry s.disk bucket).getD emptyDir).objects).1.length) ∧
        (∀ (maxKeys' : Nat) (r' : ListObjectsResponse),
          list_objects s now bucket pre delim maxKeys' = .ok r' →
            r'.common_prefixes = r.common_prefixes)) ∧
    Except.map (fun r => (r.objects.length, r.is_truncated))
      (list_objects sPhotos 9 "bkt" "" none 1) = .ok (1, true) := by
  refine ⟨?_, by decide⟩
  intro s now bucket pre delim maxKeys bkt hb r hr
  rw [list_objects_ok s now bucket pre delim maxKeys bkt hb] at hr
  injection hr with hr
  subst hr
  refine ⟨?_, ?_, ?_⟩
  · show (List.take maxKeys _).length ≤ maxKeys
    rw [List.length_take]
    exact min_le_left _ _
  · show decide (maxKeys < _) = true ↔ _
    rw [decide_eq_true_iff]
    have hlen := (List.perm_insertionSort (fun (a b : ObjectMeta) => strLe a.key b.key = true)
      (walk_objects s now bucket pre delim
        ((lookupEntry s.disk bucket).getD emptyDir).objects).1).length_eq
    rw [hlen]
  · intro maxKeys' r' hr'
    rw [list_objects_ok s now bucket pre delim maxKeys' bkt hb] at hr'
    injection hr' with hr'
    subst hr'
    rfl

/-- C5 witness: the truncation characterization applied at the concrete
photos state with `maxKeys = 1`. -/
theorem c5_list_objects_truncation_witness :
    ∃ r, list_objects sPhotos 9 "bkt" "" none 1 = .ok r ∧ r.objects.length ≤ 1 := by
  refine ⟨_, list_objects_ok sPhotos 9 "bkt" "" none 1
    ⟨"bkt", 0, "local", 3, 4⟩ (by decide), ?_⟩
  exact (c5_list_objects_truncation.1 sPhotos 9 "bkt" "" none 1
    ⟨"bkt", 0, "local", 3, 4⟩ (by decide) _
    (list_objects_ok sPhotos 9 "bkt" "" none 1
      ⟨"bkt", 0, "local", 3, 4⟩ (by decide))).1

end Freebucket

